import Mathlib

/-!
# Verification of the LAMMPS trajectory codec (`mdtraj/formats/lammpstrj.py`)

Shallow embedding of `LAMMPSTrajectoryFile`: the frame decoder `_read`
(header + body), the batch reader `read`, the cursor `seek`, and the frame
encoder `write`, together with theorems settling the specification claims.

Modelling conventions:
* A text line is a list of whitespace-separated tokens (`Token`); a token is
  an integer literal, a float literal, or a token that parses as neither.
  Python's `int(s)` succeeds on an integer literal only; `float(s)` succeeds
  on integer and float literals.
* Float values are drawn from an abstract scalar type `F` supporting exactly
  the operations the source applies to coordinate data: casting an integer
  literal, subtraction (box lengths), `min`, addition (written box bounds)
  and multiplication by the fixed unit factor 10 (`in_units_of` from
  nanometers to angstroms).  Theorems are stated for every such `F`;
  concrete witnesses instantiate `F := ℤ`.  Float rounding is not modelled.
* `readline` on an exhausted stream returns `none`, modelling Python's
  `readline` returning the empty string `''` at end of file (a blank line in
  the file is `some []`, matching `'\n' != ''`).
* Python exceptions are modelled by `Except` / an error component: the
  `_EOF` sentinel, the bare `ValueError` raised by failed header
  conversions, and the `IOError` raised for body lines (which carries the
  running line counter and the file name).
-/

set_option autoImplicit false

deriving instance DecidableEq for Except

namespace Lammpstrj

variable (F : Type)

/-- A float triple `(x, y, z)`. -/
abbrev V3 : Type := F × F × F

/-- One whitespace-separated token of a line of the text file. -/
inductive Token where
  /-- A token that Python's `int` (and `float`) accepts, e.g. `"17"`. -/
  | tInt (n : Int)
  /-- A token that Python's `float` accepts but `int` rejects, e.g. `"1.5"`. -/
  | tFloat (q : F)
  /-- A token that parses as neither `int` nor `float`. -/
  | tBad
  deriving DecidableEq

/-- A line of the file, already split into tokens. -/
abbrev Line := List (Token F)

/-- State of an open read-mode `LAMMPSTrajectoryFile`: the file's lines, the
read position of the underlying handle, and the instance attributes
`_frame_index`, `_line_counter`, `_filename`. -/
structure FileSt where
  lines : List (Line F)
  pos : Nat
  frame_index : Nat
  line_counter : Nat
  filename : String
  deriving DecidableEq

/-- A freshly opened file (`__init__` with `mode='r'`). -/
def mkFile (lines : List (Line F)) (fn : String) : FileSt F :=
  ⟨lines, 0, 0, 0, fn⟩

variable {F}

/-- `self._fh.readline()`: the next line, or `none` when the stream is
exhausted (Python returns `''` there, and keeps returning it). -/
def readline (st : FileSt F) : Option (Line F) × FileSt F :=
  (st.lines[st.pos]?, { st with pos := st.pos + 1 })

variable (F)

/-- Exceptions escaping `_read`: the `_EOF` sentinel, a bare `ValueError`
(header numeric conversions), the `IOError` with line/path context raised
for a defective body line, and `IndexError` from indexing with
`atom_indices`. -/
inductive ReadErr where
  | eof
  | valueError
  | parseIOError (line : Nat) (path : String)
  | indexError
  deriving DecidableEq

variable {F}

/-- Python `int(token)`. -/
def tokInt : Token F → Option Int
  | .tInt n => some n
  | .tFloat _ => none
  | .tBad => none

variable [IntCast F]

/-- Python `float(token)`. -/
def tokFloat : Token F → Option F
  | .tInt n => some (n : F)
  | .tFloat q => some q
  | .tBad => none

/-- Python `int(line)` for a whole line (readline result): succeeds exactly
when the stripped line is a single integer literal. -/
def parseIntLine : Option (Line F) → Option Int
  | some [t] => tokInt t
  | _ => none

/-- `box[axis] = line.split()` on a numpy row of shape `(2,)`: the line must
hold exactly two float-convertible tokens. -/
def parseBoxLine : Option (Line F) → Option (F × F)
  | some [a, b] =>
    match tokFloat a, tokFloat b with
    | some x, some y => some (x, y)
    | _, _ => none
  | _ => none

variable [Sub F]

/-- The header section of `_read` (source lines 256–270): nine `readline`
calls in fixed roles.  Returns the state after the header (line counter
advanced by 9), the atom count, and the box lengths `max − min` per axis
(`np.diff`).  An exhausted stream at the timestep line raises `_EOF`; any
failed numeric conversion raises a bare `ValueError`. -/
def readHeader (st : FileSt F) : Except (ReadErr) (FileSt F × Int × V3 F) :=
  let (_, st1) := readline st        -- ITEM: TIMESTEP
  let (step, st2) := readline st1    -- timestep
  match step with
  | none => .error .eof
  | some _ =>
    let (_, st3) := readline st2     -- ITEM: NUMBER OF ATOMS
    let (nline, st4) := readline st3 -- num atoms
    match parseIntLine nline with
    | none => .error .valueError
    | some natoms =>
      let (_, st5) := readline st4   -- ITEM: BOX BOUNDS xx xx xx
      let (bxl, st6) := readline st5 -- x-dim of box
      match parseBoxLine bxl with
      | none => .error .valueError
      | some bX =>
        let (byl, st7) := readline st6  -- y-dim of box
        match parseBoxLine byl with
        | none => .error .valueError
        | some bY =>
          let (bzl, st8) := readline st7  -- z-dim of box
          match parseBoxLine bzl with
          | none => .error .valueError
          | some bZ =>
            let (_, st9) := readline st8  -- ITEM: ATOMS ...
            .ok ({ st9 with line_counter := st9.line_counter + 9 },
                 natoms, (bX.2 - bX.1, bY.2 - bY.1, bZ.2 - bZ.1))

/-- Python sequence indexing `a[i]` for a container of length `n`:
non-negative indices are bounds-checked, negative indices wrap once. -/
def pyIdx (n : Nat) (i : Int) : Option Nat :=
  if 0 ≤ i ∧ i < (n : Int) then some i.toNat
  else if -(n : Int) ≤ i ∧ i < 0 then some (i + (n : Int)).toNat
  else none

/-- The `try` block for one body line (source lines 281–284): `temp[0]` and
`temp[1]` must convert with `int`, the slot `atom_index - 1` must be a valid
index into the pre-sized arrays of length `n`, and `temp[2:5]` must hold
exactly three float-convertible tokens (a shorter slice fails the shape-(3,)
broadcast; extra trailing tokens are ignored).  Returns the destination
slot, the type and the coordinates; `none` models any exception caught by
the bare `except`. -/
def readAtomLine (n : Nat) (toks : Line F) : Option (Nat × Int × V3 F) := do
  let t0 ← toks[0]?
  let ai ← tokInt t0
  let t1 ← toks[1]?
  let ty ← tokInt t1
  let slot ← pyIdx n (ai - 1)
  match (toks.drop 2).take 3 with
  | [a, b, c] => do
    let x ← tokFloat a
    let y ← tokFloat b
    let z ← tokFloat c
    some (slot, ty, (x, y, z))
  | _ => none

/-- The body loop of `_read` (source lines 276–291): read `k` atom lines,
storing each record at slot `id − 1` of the positions and types arrays.
An exhausted stream raises `_EOF`; a defective line raises the `IOError`
carrying the current `_line_counter` and `_filename`. -/
def readBodyAux (n : Nat) :
    Nat → FileSt F → List (Option (V3 F)) → List (Option Int) →
    Except (ReadErr) (FileSt F × List (Option (V3 F)) × List (Option Int))
  | 0, st, xyz, types => .ok (st, xyz, types)
  | k + 1, st, xyz, types =>
    match readline st with
    | (none, _) => .error .eof
    | (some toks, st1) =>
      match readAtomLine n toks with
      | none => .error (.parseIOError st.line_counter st.filename)
      | some (slot, ty, v) =>
        readBodyAux n k { st1 with line_counter := st1.line_counter + 1 }
          (xyz.set slot (some v)) (types.set slot (some ty))

variable (F)

/-- The value returned by `_read`: the positions array (slots of `np.empty`
never written stay uninitialised, modelled by `none`) and the box lengths. -/
structure Frame where
  xyz : List (Option (V3 F))
  box : V3 F
  deriving DecidableEq

variable {F}

/-- `LAMMPSTrajectoryFile._read`: decode a single frame (header then body).
`np.empty` with a negative atom count raises `ValueError`; on success the
frame index advances by one. -/
def _read (st : FileSt F) : Except (ReadErr) (FileSt F × Frame F) :=
  match readHeader st with
  | .error e => .error e
  | .ok (st1, natoms, box) =>
    if natoms < 0 then .error .valueError
    else
      match readBodyAux natoms.toNat natoms.toNat st1
          (List.replicate natoms.toNat none) (List.replicate natoms.toNat none) with
      | .error e => .error e
      | .ok (st2, xyz, _) =>
        .ok ({ st2 with frame_index := st2.frame_index + 1 }, ⟨xyz, box⟩)

/-- Projection of a decoded frame's coordinates to `atom_indices`
(`coord = coord[atom_indices, :]`, source line 232): every index must be in
range, otherwise numpy raises `IndexError`. -/
def project (ai : Option (List Nat)) (xyz : List (Option (V3 F))) :
    Except ReadErr (List (Option (V3 F))) :=
  match ai with
  | none => .ok xyz
  | some is =>
    if is.all (· < xyz.length) then .ok (is.map fun i => xyz.getD i none)
    else .error .indexError

/-- The skip loop of `read` (source lines 239–244): decode and throw away
`k` frames; `_EOF` breaks the loop (graceful), any other exception
propagates. -/
def skipFrames : Nat → FileSt F → Except ReadErr (FileSt F)
  | 0, st => .ok st
  | k + 1, st =>
    match _read st with
    | .error .eof => .ok st
    | .error e => .error e
    | .ok (st1, _) => skipFrames k st1

/-- One iteration of the main loop of `read` (source lines 228–244): decode
a frame (`_EOF` ends the batch, returning the frames kept so far), project
it to `atom_indices`, keep it, then skip `stride − 1` frames. -/
def readGoStep (ai : Option (List Nat)) (stride : Nat)
    (recurse : FileSt F → List (Frame F) → Except ReadErr (List (Frame F) × FileSt F))
    (st : FileSt F) (acc : List (Frame F)) :
    Except ReadErr (List (Frame F) × FileSt F) :=
  match _read st with
  | .error .eof => .ok (acc, st)
  | .error e => .error e
  | .ok (st1, fr) =>
    match project ai fr.xyz with
    | .error e => .error e
    | .ok pc =>
      match skipFrames (stride - 1) st1 with
      | .error e => .error e
      | .ok st2 => recurse st2 (acc ++ [⟨pc, fr.box⟩])

/-- The main loop of `read`, driven by `frame_counter` (`itertools.count()`
when `n_frames` is `None`, `xrange(n_frames)` otherwise).  The unbounded
iterator is modelled with fuel; `read` supplies a fuel amount sufficient
for any stream (the loop runs at most once per frame of the stream plus a
final end-of-stream probe). -/
def readGo (ai : Option (List Nat)) (stride : Nat) :
    Nat → Option Nat → FileSt F → List (Frame F) →
    Except ReadErr (List (Frame F) × FileSt F)
  | _, some 0, st, acc => .ok (acc, st)
  | 0, _, st, acc => .ok (acc, st)
  | fuel + 1, none, st, acc =>
    readGoStep ai stride (readGo ai stride fuel none) st acc
  | fuel + 1, some (k + 1), st, acc =>
    readGoStep ai stride (readGo ai stride fuel (some k)) st acc

/-- `LAMMPSTrajectoryFile.read`: read `n_frames` frames (all remaining
frames when `none`) with the given stride (default 1), optionally
projecting each kept frame to `atom_indices`.  Returns the list of kept
frames and the final file state. -/
def read (st : FileSt F) (n_frames : Option Nat) (stride : Option Nat)
    (atom_indices : Option (List Nat)) :
    Except ReadErr (List (Frame F) × FileSt F) :=
  readGo atom_indices (stride.getD 1) (st.lines.length + 1) n_frames st []

/-- Exceptions escaping `seek`: a propagated `_read` exception (the advance
loops do not catch `_EOF`), the `IOError('Invalid argument')`, or
`NotImplementedError`. -/
inductive SeekErr where
  | readErr (e : ReadErr)
  | invalidArgument
  | notImplemented
  deriving DecidableEq

/-- The advance loops of `seek` (source lines 388–397): decode and throw
away `k` frames.  No exception is caught here: `_EOF` propagates to the
caller like any other. -/
def seekAdvance : Nat → FileSt F → Except ReadErr (FileSt F)
  | 0, st => .ok st
  | k + 1, st =>
    match _read st with
    | .error e => .error e
    | .ok (st1, _) => seekAdvance k st1

/-- `LAMMPSTrajectoryFile.seek` in read mode: forward seeks decode and
discard frames from the current position; a backward absolute target closes
and reopens the stream (position, frame index and line counter reset to
zero) and replays from the start. -/
def seek (st : FileSt F) (offset : Int) (whence : Nat) :
    Except SeekErr (FileSt F) :=
  if whence = 0 ∧ 0 ≤ offset then
    if (st.frame_index : Int) ≤ offset then
      match seekAdvance (offset - st.frame_index).toNat st with
      | .error e => .error (.readErr e)
      | .ok st1 => .ok st1
    else
      match seekAdvance offset.toNat (mkFile F st.lines st.filename) with
      | .error e => .error (.readErr e)
      | .ok st1 => .ok st1
  else if whence = 1 ∧ 0 ≤ offset then
    match seekAdvance offset.toNat st with
    | .error e => .error (.readErr e)
    | .ok st1 => .ok st1
  else if whence = 1 ∧ offset < 0 then
    match seekAdvance (offset + st.frame_index).toNat (mkFile F st.lines st.filename) with
    | .error e => .error (.readErr e)
    | .ok st1 => .ok st1
  else if whence = 2 ∧ offset ≤ 0 then .error .notImplemented
  else .error .invalidArgument

/-- `LAMMPSTrajectoryFile.tell`: the current frame index. -/
def tell (st : FileSt F) : Nat := st.frame_index

/-- `Decodes st fs stF`: from state `st` the decoder produces exactly the
frames `fs` and then reports a clean end of stream — the source-level
meaning of "well-formed file containing `fs.length` frames" (starting at
`st`). -/
inductive Decodes : FileSt F → List (Frame F) → FileSt F → Prop
  | nil {a : FileSt F} : _read a = .error .eof → Decodes a [] a
  | cons {a b c : FileSt F} {f : Frame F} {fs : List (Frame F)} :
      _read a = .ok (b, f) → Decodes b fs c → Decodes a (f :: fs) c

/-- Every `stride`-th element of a list, starting with the first. -/
def takeEvery {α : Type} (s : Nat) : List α → List α
  | [] => []
  | x :: xs => x :: takeEvery s (xs.drop (s - 1))
termination_by l => l.length
decreasing_by simp only [List.length_cons, List.length_drop]; omega

/-- The frames a `read (n_frames, stride)` call keeps out of a stream that
decodes to `fs`. -/
def keptFrames (n_frames : Option Nat) (s : Nat) {α : Type} (fs : List α) :
    List α :=
  match n_frames with
  | none => takeEvery s fs
  | some k => (takeEvery s fs).take k

/-! ## The frame encoder (`LAMMPSTrajectoryFile.write`, source lines 296–357)

The emitted file is modelled at line granularity by `OutLine`; numeric
values are kept exact (the `{:8.3f}` fixed-precision rendering is not
modelled).  `write` returns the lines written before any exception together
with the exception, if one was raised. -/

variable (F)

/-- One line written by `write`, with literal marker lines as constant
constructors and data lines carrying their values. -/
inductive OutLine where
  | itemTimestep
  | tsVal (i : Nat)
  | itemNumAtoms
  | natomsVal (n : Nat)
  | itemBox
  | boundVal (lo hi : F)
  | itemAtoms
  | atomRow (id : Nat) (ty : Int) (v : V3 F)
  deriving DecidableEq

/-- Exceptions raised by `write`: `TypeError` from `ensure_type`,
`ValueError` from the truth test of a multi-element array, `IndexError`
from an out-of-range numpy access. -/
inductive WriteErr where
  | typeError
  | valueError
  | indexError
  deriving DecidableEq

variable {F}

variable [Min F] [Add F] [Mul F] [OfNat F 10]

/-- `in_units_of(·, 'nanometers', 'angstroms')`: the fixed factor-10 unit
conversion applied to one float triple. -/
def scaleV3 (v : V3 F) : V3 F := (10 * v.1, 10 * v.2.1, 10 * v.2.2)

/-- `row.min()` over one atom's three coordinates: `xyz[0].min(axis=1)`
reduces along the coordinate axis, yielding one minimum per atom. -/
def atomMin (v : V3 F) : F := min v.1 (min v.2.1 v.2.2)

/-- The body loop of `write` (source lines 354–356): one line per atom,
`id` enumerated from 1, type looked up in `types` (in range whenever the
earlier `ensure_type` shape checks passed). -/
def emitAtoms (types : List Int) : Nat → List (V3 F) →
    List (OutLine F) × Option WriteErr
  | _, [] => ([], none)
  | j, v :: vs =>
    match types[j]? with
    | none => ([], some .indexError)
    | some t =>
      let (rest, err) := emitAtoms types (j + 1) vs
      (.atomRow (j + 1) t v :: rest, err)

/-- One iteration of the frame loop of `write` (source lines 339–356):
the header lines, then the box-bounds lines computed from `mins`
(`xyz[0].min(axis=1)`, one entry per atom of frame 0 — accessed here at
positions 0, 1, 2 as if they were per-axis minima) and from frame 0's cell
lengths, then the atom lines. -/
def emitFrame (i : Nat) (n0 : Nat) (mins : List F) (cl0 : V3 F)
    (types : List Int) (coords : List (V3 F)) :
    List (OutLine F) × Option WriteErr :=
  let hdr : List (OutLine F) :=
    [.itemTimestep, .tsVal i, .itemNumAtoms, .natomsVal n0, .itemBox]
  match mins[0]?  with
  | none => (hdr, some .indexError)
  | some m0 =>
    let l1 : OutLine F := .boundVal m0 (m0 + cl0.1)
    match mins[1]? with
    | none => (hdr ++ [l1], some .indexError)
    | some m1 =>
      let l2 : OutLine F := .boundVal m1 (m1 + cl0.2.1)
      match mins[2]? with
      | none => (hdr ++ [l1, l2], some .indexError)
      | some m2 =>
        let l3 : OutLine F := .boundVal m2 (m2 + cl0.2.2)
        let (body, err) := emitAtoms types 0 coords
        (hdr ++ [l1, l2, l3, .itemAtoms] ++ body, err)

/-- The frame loop of `write`: emit every frame in turn, stopping at the
first exception.  `mins` is recomputed each iteration from frame 0 of the
(unit-converted) coordinate array, exactly as the source does. -/
def writeLoop (xyzS : List (List (V3 F))) (cl0 : V3 F) (n0 : Nat)
    (types : List Int) : Nat → List (List (V3 F)) →
    List (OutLine F) × Option WriteErr
  | _, [] => ([], none)
  | i, f :: rest =>
    let mins := (xyzS.headD []).map atomMin
    let (out, err) := emitFrame i n0 mins cl0 types f
    match err with
    | some e => (out, some e)
    | none =>
      let (out2, err2) := writeLoop xyzS cl0 n0 types (i + 1) rest
      (out ++ out2, err2)

/-- Python `not types` for the documented `np.ndarray` argument: `True` for
a missing or all-falsy single-element array, `False` for a truthy
single-element array, and a `ValueError` ("truth value of an array with
more than one element is ambiguous") for a longer array. -/
def pyNotTypes : List Int → Except WriteErr Bool
  | [] => .ok true
  | [x] => .ok (decide (x = 0))
  | _ :: _ :: _ => .error .valueError

/-- The `ensure_type` checks of `write`: `xyz` must be a non-degenerate
rectangular `(n_frames, n_atoms, 3)` array. -/
def validXyz (xyz : List (List (V3 F))) : Bool :=
  !xyz.isEmpty && !(xyz.headD []).isEmpty &&
    xyz.all fun f => f.length = (xyz.headD []).length

/-- `LAMMPSTrajectoryFile.write`: validate the arguments, default `types`
to all-ones when absent or falsy, convert units, then emit every frame.
Returns the lines written and the exception raised, if any. -/
def write (xyz : List (List (V3 F))) (cell_lengths : List (V3 F))
    (types : Option (List Int)) : List (OutLine F) × Option WriteErr :=
  if !validXyz xyz then ([], some .typeError)
  else if cell_lengths.length ≠ xyz.length then ([], some .typeError)
  else
    let n0 := (xyz.headD []).length
    match (match types with | none => Except.ok true | some l => pyNotTypes l) with
    | .error e => ([], some e)
    | .ok replace =>
      let typesArr := if replace then List.replicate n0 (1 : Int) else types.getD []
      if typesArr.length ≠ n0 then ([], some .typeError)
      else
        let xyzS := xyz.map (List.map scaleV3)
        let clS := cell_lengths.map scaleV3
        match clS.head? with
        | none => ([], some .indexError)
        | some cl0 => writeLoop xyzS cl0 n0 typesArr 0 xyzS

/-! ## Frame bodies given as atom records -/

variable (F)

/-- One atom record of a frame body: declared id, type and position. -/
structure AtomRec where
  id : Int
  ty : Int
  pos : V3 F
  deriving DecidableEq

variable {F}

/-- The body line printing an atom record: `id type x y z`. -/
def atomLine (r : AtomRec F) : Line F :=
  [.tInt r.id, .tInt r.ty, .tFloat r.pos.1, .tFloat r.pos.2.1,
   .tFloat r.pos.2.2]

/-- The nine header lines of a well-formed frame: marker lines (arbitrary
content, they are never inspected), the timestep, the atom count and the
three box-bounds rows. -/
def headerLines (m1 : Line F) (ts : Int) (m3 : Line F) (n : Nat)
    (m5 : Line F) (b1 b2 b3 : F × F) (m9 : Line F) : List (Line F) :=
  [m1, [.tInt ts], m3, [.tInt (n : Int)], m5,
   [.tFloat b1.1, .tFloat b1.2], [.tFloat b2.1, .tFloat b2.2],
   [.tFloat b3.1, .tFloat b3.2], m9]

/-! ## Concrete instances: example files, counterexamples and witnesses -/

/-- Does a decoder exception carry the line/path context of the body-line
`IOError`? -/
def carriesLineContext : ReadErr → Bool
  | .parseIOError _ _ => true
  | _ => false

/-- A well-formed 2-frame, 3-atom example file whose body lines arrive in
id order 3, 1, 2 (the spec's scenario). -/
def egLines : List (Line ℤ) :=
  headerLines [] 0 [] 3 [] (0, 10) (0, 11) (0, 12) [] ++
    [[Token.tInt 3, Token.tInt 1, Token.tFloat 7, Token.tFloat 8,
      Token.tFloat 9],
     [Token.tInt 1, Token.tInt 1, Token.tFloat 1, Token.tFloat 2,
      Token.tFloat 3],
     [Token.tInt 2, Token.tInt 1, Token.tFloat 4, Token.tFloat 5,
      Token.tFloat 6]] ++
  headerLines [] 1 [] 3 [] (1, 2) (3, 5) (4, 8) [] ++
    [[Token.tInt 3, Token.tInt 1, Token.tFloat 16, Token.tFloat 17,
      Token.tFloat 18],
     [Token.tInt 1, Token.tInt 1, Token.tFloat 10, Token.tFloat 11,
      Token.tFloat 12],
     [Token.tInt 2, Token.tInt 1, Token.tFloat 13, Token.tFloat 14,
      Token.tFloat 15]]

/-- The example file, freshly opened. -/
def egFile : FileSt ℤ := mkFile ℤ egLines "eg"

/-- The two frames `egLines` decodes to: positions in ascending-id order. -/
def egFrames : List (Frame ℤ) :=
  [⟨[some (1, 2, 3), some (4, 5, 6), some (7, 8, 9)], (10, 11, 12)⟩,
   ⟨[some (10, 11, 12), some (13, 14, 15), some (16, 17, 18)], (1, 2, 4)⟩]

/-- The stream state after decoding both frames of `egLines`. -/
def egEnd : FileSt ℤ := ⟨egLines, 24, 2, 24, "eg"⟩

/-- The atom records of the spec's permutation scenario (ids 3, 1, 2). -/
def egRecs : List (AtomRec ℤ) :=
  [⟨3, 1, (7, 8, 9)⟩, ⟨1, 1, (1, 2, 3)⟩, ⟨2, 1, (4, 5, 6)⟩]

/-- A 1-frame file whose single body line has unparseable coordinates. -/
def badBodyLines : List (Line ℤ) :=
  headerLines [] 0 [] 1 [] (0, 1) (0, 1) (0, 1) [] ++
    [[Token.tInt 1, Token.tInt 1, Token.tBad, Token.tBad, Token.tBad]]

/-- A 2-atom frame whose second body line has an unparseable type field. -/
def w6Lines : List (Line ℤ) :=
  headerLines [] 5 [] 2 [] (0, 1) (0, 1) (0, 1) [] ++
    [[Token.tInt 1, Token.tInt 1, Token.tFloat 0, Token.tFloat 0,
      Token.tFloat 0],
     [Token.tInt 2, Token.tBad, Token.tFloat 0, Token.tFloat 0,
      Token.tFloat 0]]

/-- A frame whose atom-count header line is unparseable. -/
def w7Lines : List (Line ℤ) := [[], [Token.tInt 0], [], [Token.tBad]]

/-! ## Basic facts about the decoder -/

set_option linter.unusedSectionVars false

section ReaderLemmas

/-- `readHeader` characterised by the line positions it consumes. -/
theorem readHeader_eq (st : FileSt F) :
    readHeader st =
      match st.lines[st.pos + 1]? with
      | none => .error .eof
      | some _ =>
        match parseIntLine st.lines[st.pos + 3]? with
        | none => .error .valueError
        | some natoms =>
          match parseBoxLine st.lines[st.pos + 5]? with
          | none => .error .valueError
          | some bX =>
            match parseBoxLine st.lines[st.pos + 6]? with
            | none => .error .valueError
            | some bY =>
              match parseBoxLine st.lines[st.pos + 7]? with
              | none => .error .valueError
              | some bZ =>
                .ok (⟨st.lines, st.pos + 9, st.frame_index,
                      st.line_counter + 9, st.filename⟩,
                     natoms, (bX.2 - bX.1, bY.2 - bY.1, bZ.2 - bZ.1)) := rfl

theorem parseBoxLine_none : parseBoxLine (F := F) none = none := rfl

theorem parseIntLine_none : parseIntLine (F := F) none = none := rfl

/-- A successful header determines the resulting state completely and
needs the box lines to exist in the stream. -/
theorem readHeader_ok {st st1 : FileSt F} {n : Int} {b : V3 F}
    (h : readHeader st = .ok (st1, n, b)) :
    st1 = ⟨st.lines, st.pos + 9, st.frame_index,
           st.line_counter + 9, st.filename⟩ ∧
    st.pos + 8 ≤ st.lines.length := by
  rw [readHeader_eq] at h
  split at h
  · exact absurd h (by simp)
  split at h
  · exact absurd h (by simp)
  split at h
  · exact absurd h (by simp)
  split at h
  · exact absurd h (by simp)
  split at h
  · exact absurd h (by simp)
  next hbz =>
    refine ⟨?_, ?_⟩
    · exact ((Prod.mk.injEq _ _ _ _).mp (Except.ok.inj h)).1.symm
    · by_contra hlen
      rw [List.getElem?_eq_none (by omega)] at hbz
      exact absurd hbz (by simp [parseBoxLine])

/-- One step of the body loop, characterised by the line it consumes. -/
theorem readBodyAux_succ (n k : Nat) (st : FileSt F)
    (X : List (Option (V3 F))) (T : List (Option Int)) :
    readBodyAux n (k + 1) st X T =
      match st.lines[st.pos]? with
      | none => .error .eof
      | some toks =>
        match readAtomLine n toks with
        | none => .error (.parseIOError st.line_counter st.filename)
        | some (slot, ty, v) =>
          readBodyAux n k
            ⟨st.lines, st.pos + 1, st.frame_index,
             st.line_counter + 1, st.filename⟩
            (X.set slot (some v)) (T.set slot (some ty)) := by
  rw [readBodyAux, readline]
  rcases st.lines[st.pos]? with _ | toks <;> rfl

/-- `readBodyAux` on success consumes exactly `k` lines, keeps the stream
and bookkeeping fields, and preserves array lengths. -/
theorem readBodyAux_ok {n : Nat} :
    ∀ {k : Nat} {st st2 : FileSt F} {X X2 : List (Option (V3 F))}
      {T T2 : List (Option Int)},
      readBodyAux n k st X T = .ok (st2, X2, T2) →
      st2.lines = st.lines ∧ st2.pos = st.pos + k ∧
      (0 < k → st.pos + k ≤ st.lines.length) ∧
      st2.frame_index = st.frame_index ∧ st2.filename = st.filename ∧
      st2.line_counter = st.line_counter + k ∧
      X2.length = X.length ∧ T2.length = T.length
  | 0, st, st2, X, X2, T, T2, h => by
    obtain ⟨rfl, rfl, rfl⟩ :
        st = st2 ∧ X = X2 ∧ T = T2 := by
      simpa [readBodyAux] using h
    simp
  | k + 1, st, st2, X, X2, T, T2, h => by
    rw [readBodyAux_succ] at h
    split at h
    · exact absurd h (by simp)
    next toks hline =>
      split at h
      · exact absurd h (by simp)
      next slot ty v hatom =>
        obtain ⟨h1, h2, h3, h4, h5, h6, h7, h8⟩ := readBodyAux_ok h
        have hpos : st.pos < st.lines.length := by
          by_contra hlen
          rw [List.getElem?_eq_none (by omega)] at hline
          exact Option.noConfusion hline
        simp only [List.length_set] at h7 h8
        dsimp only at h1 h2 h3 h4 h5 h6
        exact ⟨h1, by rw [h2]; omega, fun _ => by omega, h4, h5,
               by rw [h6]; omega, h7, h8⟩

/-- `_read` on success: the stream is unchanged, the position advances by
at least the 9 header lines and stays within one line past the end, the
frame index advances by exactly one, and the file name is kept. -/
theorem _read_ok {st st1 : FileSt F} {f : Frame F}
    (h : _read st = .ok (st1, f)) :
    st1.lines = st.lines ∧ st.pos + 9 ≤ st1.pos ∧
    st1.pos ≤ st.lines.length + 1 ∧
    st1.frame_index = st.frame_index + 1 ∧ st1.filename = st.filename := by
  rw [_read] at h
  split at h
  · exact absurd h (by simp)
  next sth n b hh =>
    obtain ⟨hsth, hbound⟩ := readHeader_ok hh
    split at h
    · exact absurd h (by simp)
    split at h
    · exact absurd h (by simp)
    next st2 X T hb =>
      obtain ⟨h1, h2, h3, h4, h5, _, _, _⟩ := readBodyAux_ok hb
      rw [hsth] at h1 h2 h3 h4 h5
      simp only [Except.ok.injEq, Prod.mk.injEq] at h
      obtain ⟨hst1, hf⟩ := h
      rw [← hst1]
      simp only at h1 h2 h3 h4 h5 ⊢
      rcases Nat.eq_zero_or_pos n.toNat with hz | hpos
      · rw [hz] at h2
        exact ⟨h1, by omega, by omega, by omega, h5⟩
      · have := h3 hpos
        exact ⟨h1, by omega, by omega, by omega, h5⟩

/-- A stream decoding to `fs` holds at least `9 · fs.length` unread
lines (each frame consumes at least its 9 header lines). -/
theorem Decodes.pos_bound {st stF : FileSt F} {fs : List (Frame F)}
    (h : Decodes st fs stF) :
    9 * fs.length ≤ st.lines.length + 1 - st.pos := by
  induction h with
  | nil _ => simp
  | cons hr _ ih =>
    obtain ⟨h1, h2, h3, _, _⟩ := _read_ok hr
    rw [h1] at ih
    simp only [List.length_cons]
    omega

/-- A stream never decodes to more frames than it has lines. -/
theorem Decodes.length_le {st stF : FileSt F} {fs : List (Frame F)}
    (h : Decodes st fs stF) : fs.length ≤ st.lines.length := by
  have := h.pos_bound
  omega

/-- Inverting `Decodes` on the empty frame list. -/
theorem Decodes.eof_of_nil {st stF : FileSt F} (h : Decodes st [] stF) :
    _read st = .error .eof := by
  cases h; assumption

/-! ### Unfolding equations for the loop functions -/

theorem readGo_some_zero (ai : Option (List Nat)) (s fuel : Nat)
    (st : FileSt F) (acc : List (Frame F)) :
    readGo ai s fuel (some 0) st acc = .ok (acc, st) := by
  cases fuel <;> rfl

theorem readGo_fuel_zero (ai : Option (List Nat)) (s : Nat) (n? : Option Nat)
    (st : FileSt F) (acc : List (Frame F)) :
    readGo ai s 0 n? st acc = .ok (acc, st) := by
  rcases n? with _ | (_ | k) <;> rfl

theorem readGo_none_succ (ai : Option (List Nat)) (s fuel : Nat)
    (st : FileSt F) (acc : List (Frame F)) :
    readGo ai s (fuel + 1) none st acc =
      readGoStep ai s (readGo ai s fuel none) st acc := rfl

theorem readGo_some_succ (ai : Option (List Nat)) (s fuel k : Nat)
    (st : FileSt F) (acc : List (Frame F)) :
    readGo ai s (fuel + 1) (some (k + 1)) st acc =
      readGoStep ai s (readGo ai s fuel (some k)) st acc := rfl

theorem takeEvery_nil {α : Type} (s : Nat) : takeEvery s ([] : List α) = [] := by
  rw [takeEvery]

theorem takeEvery_cons {α : Type} (s : Nat) (x : α) (xs : List α) :
    takeEvery s (x :: xs) = x :: takeEvery s (xs.drop (s - 1)) := by
  rw [takeEvery]

/-- Stride 1 keeps every frame. -/
theorem takeEvery_one {α : Type} (l : List α) : takeEvery 1 l = l := by
  induction l with
  | nil => rw [takeEvery_nil]
  | cons x xs ih => rw [takeEvery_cons]; simp [ih]

/-- `takeEvery s` keeps `⌈length / s⌉` elements. -/
theorem takeEvery_length {α : Type} (s : Nat) (hs : 1 ≤ s) (l : List α) :
    (takeEvery s l).length = (l.length + s - 1) / s := by
  have key : ∀ (n : Nat) (l : List α), l.length ≤ n →
      (takeEvery s l).length = (l.length + s - 1) / s := by
    intro n
    induction n with
    | zero =>
      intro l hl
      obtain rfl : l = [] := List.length_eq_zero.mp (by omega)
      rw [takeEvery_nil]
      simpa using (Nat.div_eq_of_lt (by omega : s - 1 < s)).symm
    | succ n ih =>
      intro l hl
      cases l with
      | nil =>
        rw [takeEvery_nil]
        simpa using (Nat.div_eq_of_lt (by omega : s - 1 < s)).symm
      | cons x xs =>
        rw [takeEvery_cons]
        simp only [List.length_cons] at hl ⊢
        rw [ih _ (by simp [List.length_drop]; omega)]
        have harith : xs.length + 1 + s - 1 = xs.length + s := by omega
        rw [harith, Nat.add_div_right _ (by omega), List.length_drop]
        rcases le_or_lt (s - 1) xs.length with hle | hlt
        · have h1 : xs.length - (s - 1) + s - 1 = xs.length := by omega
          rw [h1]
        · have h0 : xs.length - (s - 1) = 0 := by omega
          rw [h0]
          rw [Nat.div_eq_of_lt (by omega : 0 + s - 1 < s),
              Nat.div_eq_of_lt (by omega : xs.length < s)]
  exact key l.length l (le_refl _)

/-- `takeEvery s` keeps exactly the elements at positions `0, s, 2s, …`. -/
theorem takeEvery_getElem? {α : Type} (s : Nat) (hs : 1 ≤ s) (l : List α)
    (i : Nat) : (takeEvery s l)[i]? = l[i * s]? := by
  have key : ∀ (n : Nat) (l : List α), l.length ≤ n → ∀ (i : Nat),
      (takeEvery s l)[i]? = l[i * s]? := by
    intro n
    induction n with
    | zero =>
      intro l hl i
      obtain rfl : l = [] := List.length_eq_zero.mp (by omega)
      rw [takeEvery_nil]; simp
    | succ n ih =>
      intro l hl i
      cases l with
      | nil => rw [takeEvery_nil]; simp
      | cons x xs =>
        rw [takeEvery_cons]
        cases i with
        | zero => simp
        | succ i =>
          simp only [List.length_cons] at hl
          rw [List.getElem?_cons_succ,
              ih _ (by simp [List.length_drop]; omega) i,
              List.getElem?_drop]
          have hmul : (i + 1) * s = s - 1 + i * s + 1 := by
            rw [Nat.add_mul, Nat.one_mul]
            omega
          rw [hmul, List.getElem?_cons_succ]
  exact key l.length l (le_refl _) i

theorem keptFrames_some_zero {α : Type} (s : Nat) (fs : List α) :
    keptFrames (some 0) s fs = [] := by
  simp [keptFrames]

theorem keptFrames_nil {α : Type} (n? : Option Nat) (s : Nat) :
    keptFrames n? s ([] : List α) = [] := by
  rcases n? with _ | k <;> simp [keptFrames, takeEvery_nil]

theorem keptFrames_none_cons {α : Type} (s : Nat) (x : α) (xs : List α) :
    keptFrames none s (x :: xs) = x :: keptFrames none s (xs.drop (s - 1)) := by
  simp [keptFrames, takeEvery_cons]

theorem keptFrames_some_succ {α : Type} (s k : Nat) (x : α) (xs : List α) :
    keptFrames (some (k + 1)) s (x :: xs) =
      x :: keptFrames (some k) s (xs.drop (s - 1)) := by
  simp [keptFrames, takeEvery_cons]

/-! ### Correctness of the loops against `Decodes` -/

/-- The skip loop consumes `min k fs.length` frames and never fails on a
stream that decodes cleanly. -/
theorem skipFrames_ok (k : Nat) :
    ∀ {st stF : FileSt F} {fs : List (Frame F)}, Decodes st fs stF →
      ∃ st2, skipFrames k st = .ok st2 ∧ Decodes st2 (fs.drop k) stF := by
  induction k with
  | zero => exact fun h => ⟨_, rfl, by simpa⟩
  | succ k ih =>
    intro st stF fs h
    cases fs with
    | nil =>
      exact ⟨st, by simp [skipFrames, h.eof_of_nil], by simpa using h⟩
    | cons f fs =>
      cases h with
      | cons hr hd =>
        obtain ⟨st2, hskip, hd2⟩ := ih hd
        exact ⟨st2, by simp [skipFrames, hr, hskip], by simpa using hd2⟩

/-- The seek advance loop consumes exactly `k` frames when the stream still
holds at least `k`. -/
theorem seekAdvance_ok :
    ∀ (k : Nat) {st stF : FileSt F} {fs : List (Frame F)}, Decodes st fs stF →
      k ≤ fs.length →
      ∃ st2, seekAdvance k st = .ok st2 ∧ Decodes st2 (fs.drop k) stF ∧
        st2.frame_index = st.frame_index + k := by
  intro k
  induction k with
  | zero => exact fun h _ => ⟨_, rfl, by simpa, by simp⟩
  | succ k ih =>
    intro st stF fs h hk
    cases fs with
    | nil => simp at hk
    | cons f fs =>
      cases h with
      | cons hr hd =>
        obtain ⟨st2, hadv, hd2, hfi⟩ := ih hd (by simpa using hk)
        refine ⟨st2, by simp [seekAdvance, hr, hadv], by simpa using hd2, ?_⟩
        obtain ⟨_, _, _, h4, _⟩ := _read_ok hr
        omega

/-- The seek advance loop propagates `_EOF` when asked to advance past the
end of the stream. -/
theorem seekAdvance_eof :
    ∀ (k : Nat) {st stF : FileSt F} {fs : List (Frame F)}, Decodes st fs stF →
      fs.length < k → seekAdvance k st = .error .eof := by
  intro k
  induction k with
  | zero => omega
  | succ k ih =>
    intro st stF fs h hk
    cases fs with
    | nil => simp [seekAdvance, h.eof_of_nil]
    | cons f fs =>
      cases h with
      | cons hr hd =>
        simp [seekAdvance, hr, ih hd (by simpa using hk)]

/-- Main loop correctness: with enough fuel, a stream that decodes to `fs`
yields exactly the frames `keptFrames n? s fs`, with no error. -/
theorem readGo_ok {s : Nat} (_hs : 1 ≤ s) :
    ∀ (fuel : Nat) (n? : Option Nat) {st stF : FileSt F}
      {fs : List (Frame F)} (acc : List (Frame F)),
      Decodes st fs stF → fs.length < fuel →
      ∃ stf, readGo none s fuel n? st acc =
        .ok (acc ++ keptFrames n? s fs, stf) := by
  intro fuel
  induction fuel with
  | zero => intro n? st stF fs acc hd hlen; omega
  | succ fuel ih =>
    intro n? st stF fs acc hd hlen
    rcases n? with _ | (_ | k)
    · -- n_frames = None
      cases fs with
      | nil =>
        refine ⟨st, ?_⟩
        rw [readGo_none_succ, readGoStep, hd.eof_of_nil]
        simp [keptFrames_nil]
      | cons f fs =>
        cases hd with
        | cons hr hd =>
          obtain ⟨st2, hskip, hd2⟩ := skipFrames_ok (s - 1) hd
          obtain ⟨stf, hrec⟩ :=
            ih none (acc ++ [f]) hd2
              (by have := List.length_drop (s - 1) fs; simp at hlen ⊢; omega)
          refine ⟨stf, ?_⟩
          rw [readGo_none_succ, readGoStep, hr]
          simpa [project, hskip, keptFrames_none_cons] using hrec
    · -- n_frames = some 0
      exact ⟨st, by rw [readGo_some_zero]; simp [keptFrames_some_zero]⟩
    · -- n_frames = some (k+1)
      cases fs with
      | nil =>
        refine ⟨st, ?_⟩
        rw [readGo_some_succ, readGoStep, hd.eof_of_nil]
        simp [keptFrames_nil]
      | cons f fs =>
        cases hd with
        | cons hr hd =>
          obtain ⟨st2, hskip, hd2⟩ := skipFrames_ok (s - 1) hd
          obtain ⟨stf, hrec⟩ :=
            ih (some k) (acc ++ [f]) hd2
              (by have := List.length_drop (s - 1) fs; simp at hlen ⊢; omega)
          refine ⟨stf, ?_⟩
          rw [readGo_some_succ, readGoStep, hr]
          simpa [project, hskip, keptFrames_some_succ] using hrec

/-- `read` on a stream decoding to `fs`, with no atom selection: keeps
exactly `keptFrames n? s fs` and raises nothing. -/
theorem read_keeps {st stF : FileSt F} {fs : List (Frame F)}
    (hd : Decodes st fs stF) (n? : Option Nat) (s : Nat) (hs : 1 ≤ s) :
    ∃ stf, read st n? (some s) none = .ok (keptFrames n? s fs, stf) := by
  have hfuel : fs.length < st.lines.length + 1 :=
    Nat.lt_succ_of_le hd.length_le
  simpa [read] using readGo_ok hs (st.lines.length + 1) n? [] hd hfuel

/-- `read` with the default stride (`None` ↦ 1). -/
theorem read_keeps_default {st stF : FileSt F} {fs : List (Frame F)}
    (hd : Decodes st fs stF) (n? : Option Nat) :
    ∃ stf, read st n? none none = .ok (keptFrames n? 1 fs, stf) := by
  have hfuel : fs.length < st.lines.length + 1 :=
    Nat.lt_succ_of_le hd.length_le
  simpa [read] using
    readGo_ok (le_refl 1) (st.lines.length + 1) n? [] hd hfuel

end ReaderLemmas

section BodyPerm

/-- A well-formed atom line with an id in `[1, n]` parses to the record's
data, destined for slot `id − 1`. -/
theorem readAtomLine_atomLine {n : Nat} {r : AtomRec F}
    (h1 : 1 ≤ r.id) (h2 : r.id ≤ (n : Int)) :
    readAtomLine n (atomLine r) = some ((r.id - 1).toNat, r.ty, r.pos) := by
  have hidx : pyIdx n (r.id - 1) = some (r.id - 1).toNat := by
    rw [pyIdx, if_pos ⟨by omega, by omega⟩]
  simp [readAtomLine, atomLine, tokInt, tokFloat, hidx]

/-- Distinct ids that are at least 1 land in distinct slots. -/
theorem slot_injective {a b : Int} (ha : 1 ≤ a) (hb : 1 ≤ b)
    (h : (a - 1).toNat = (b - 1).toNat) : a = b := by omega

/-- Decoding a body whose records carry pairwise distinct ids in `[1, n]`:
the loop succeeds, stores every record at slot `id − 1`, and leaves all
other slots untouched. -/
theorem readBody_perm :
    ∀ (recs : List (AtomRec F)) {n : Nat} {t : FileSt F}
      {X : List (Option (V3 F))} {T : List (Option Int)},
      (∀ r ∈ recs, 1 ≤ r.id ∧ r.id ≤ (n : Int)) →
      (recs.map AtomRec.id).Nodup →
      (∀ (i : Nat) (r : AtomRec F), recs[i]? = some r →
        t.lines[t.pos + i]? = some (atomLine r)) →
      X.length = n → T.length = n →
      ∃ st2 X2 T2, readBodyAux n recs.length t X T = .ok (st2, X2, T2) ∧
        (∀ r ∈ recs, X2[(r.id - 1).toNat]? = some (some r.pos) ∧
          T2[(r.id - 1).toNat]? = some (some r.ty)) ∧
        (∀ j : Nat, (∀ r ∈ recs, (r.id - 1).toNat ≠ j) →
          X2[j]? = X[j]? ∧ T2[j]? = T[j]?)
  | [], n, st, X, T, _, _, _, _, _ => by
    exact ⟨st, X, T, rfl, by simp, fun j _ => ⟨rfl, rfl⟩⟩
  | r :: rest, n, st, X, T, hids, hnd, hlines, hX, hT => by
    obtain ⟨hr1, hr2⟩ := hids r (List.mem_cons_self r rest)
    have hline0 : st.lines[st.pos]? = some (atomLine r) := by
      simpa using hlines 0 r (by simp)
    have hslot : (r.id - 1).toNat < n := by omega
    have hrest : ∀ i (r' : AtomRec F), rest[i]? = some r' →
        st.lines[st.pos + 1 + i]? = some (atomLine r') := by
      intro i r' hi
      have := hlines (i + 1) r' (by simpa using hi)
      simpa [Nat.add_assoc, Nat.add_comm 1 i] using this
    obtain ⟨st2, X2, T2, heq, hmem, hframe⟩ :=
      readBody_perm rest (n := n)
        (t := ⟨st.lines, st.pos + 1, st.frame_index,
                st.line_counter + 1, st.filename⟩)
        (X := X.set (r.id - 1).toNat (some r.pos))
        (T := T.set (r.id - 1).toNat (some r.ty))
        (fun r' h => hids r' (List.mem_cons_of_mem r h))
        (by simpa using hnd.of_cons)
        hrest (by simpa using hX) (by simpa using hT)
    have hne : ∀ r' ∈ rest, (r'.id - 1).toNat ≠ (r.id - 1).toNat := by
      intro r' hr' h
      have : r'.id = r.id :=
        slot_injective (hids r' (List.mem_cons_of_mem r hr')).1 hr1 h
      have : r.id ∈ rest.map AtomRec.id := by
        rw [← this]; exact List.mem_map_of_mem AtomRec.id hr'
      simp at hnd
      exact hnd.1 _ hr' (by rw [(slot_injective (hids r' (List.mem_cons_of_mem r hr')).1 hr1 h)])
    refine ⟨st2, X2, T2, ?_, ?_, ?_⟩
    · simp only [List.length_cons, readBodyAux_succ, hline0,
        readAtomLine_atomLine hr1 hr2]
      exact heq
    · intro r' hr'
      rcases List.mem_cons.mp hr' with rfl | hr'
      · have huntouched := hframe (r'.id - 1).toNat (by
          intro r'' hr'' hcontra
          exact hne r'' hr'' hcontra)
        refine ⟨?_, ?_⟩
        · rw [huntouched.1, List.getElem?_set_self (by omega)]
        · rw [huntouched.2, List.getElem?_set_self (by omega)]
      · exact hmem r' hr'
    · intro j hj
      have hj' : ∀ r' ∈ rest, (r'.id - 1).toNat ≠ j :=
        fun r' h => hj r' (List.mem_cons_of_mem r h)
      have hjr : (r.id - 1).toNat ≠ j := hj r (List.mem_cons_self r rest)
      obtain ⟨hXf, hTf⟩ := hframe j hj'
      exact ⟨by rw [hXf, List.getElem?_set_ne hjr],
             by rw [hTf, List.getElem?_set_ne hjr]⟩

end BodyPerm

section HeaderLemmas

/-- Decoding the header of a stream that starts with nine well-formed
header lines. -/
theorem readHeader_headerLines (m1 m3 m5 m9 : Line F) (ts : Int) (n : Nat)
    (b1 b2 b3 : F × F) (rest : List (Line F)) (fi lc : Nat) (fn : String) :
    readHeader (⟨headerLines m1 ts m3 n m5 b1 b2 b3 m9 ++ rest,
                 0, fi, lc, fn⟩ : FileSt F) =
      .ok (⟨headerLines m1 ts m3 n m5 b1 b2 b3 m9 ++ rest, 9, fi, lc + 9, fn⟩,
           (n : Int), (b1.2 - b1.1, b2.2 - b2.1, b3.2 - b3.1)) := by
  rw [readHeader_eq]
  simp [headerLines, parseIntLine, parseBoxLine, tokInt, tokFloat]

/-- C1: for every frame body whose atom records are an arbitrary
permutation of ids `1..n`, decoding the frame stores each record at slot
`id − 1`: the resulting positions array (returned by `_read`) and types
array (filled by the body loop) hold, at position `id − 1`, exactly the
record with that id — i.e. both arrays are ordered by ascending id
regardless of the input line order. -/
theorem C1_body_permutation (n : Nat) (recs : List (AtomRec F))
    (m1 m3 m5 m9 : Line F) (ts : Int) (b1 b2 b3 : F × F)
    (extra : List (Line F)) (fn : String)
    (hperm : List.Perm (recs.map AtomRec.id)
      ((List.range n).map (fun (i : Nat) => (i : Int) + 1))) :
    ∃ (st2 stR : FileSt F) (X : List (Option (V3 F)))
      (T : List (Option Int)),
      readBodyAux n n
        (⟨headerLines m1 ts m3 n m5 b1 b2 b3 m9 ++
            (recs.map atomLine ++ extra), 9, 0, 9, fn⟩ : FileSt F)
        (List.replicate n none) (List.replicate n none) = .ok (st2, X, T) ∧
      _read (mkFile F (headerLines m1 ts m3 n m5 b1 b2 b3 m9 ++
          (recs.map atomLine ++ extra)) fn) =
        .ok (stR, ⟨X, (b1.2 - b1.1, b2.2 - b2.1, b3.2 - b3.1)⟩) ∧
      (∀ r ∈ recs, X[(r.id - 1).toNat]? = some (some r.pos) ∧
        T[(r.id - 1).toNat]? = some (some r.ty)) := by
  have hlen : recs.length = n := by
    have := hperm.length_eq
    simpa using this
  have hids : ∀ r ∈ recs, 1 ≤ r.id ∧ r.id ≤ (n : Int) := by
    intro r hr
    have : r.id ∈ (List.range n).map (fun (i : Nat) => (i : Int) + 1) :=
      hperm.mem_iff.mp (List.mem_map_of_mem AtomRec.id hr)
    obtain ⟨i, hi, heq2⟩ := List.mem_map.mp this
    rw [List.mem_range] at hi
    omega
  have hnd : (recs.map AtomRec.id).Nodup := by
    refine hperm.symm.nodup ?_
    exact List.Nodup.map (fun a b h => by omega) (List.nodup_range n)
  have h9 : (headerLines m1 ts m3 n m5 b1 b2 b3 m9 : List (Line F)).length = 9 := by
    simp [headerLines]
  have hlines : ∀ (i : Nat) (r : AtomRec F), recs[i]? = some r →
      (headerLines m1 ts m3 n m5 b1 b2 b3 m9 ++
        (recs.map atomLine ++ extra))[9 + i]? = some (atomLine r) := by
    intro i r hi
    have hik : i < recs.length := by
      rcases List.getElem?_eq_some.mp hi with ⟨h, _⟩
      exact h
    rw [List.getElem?_append, h9, if_neg (by omega),
        (by omega : 9 + i - 9 = i), List.getElem?_append,
        if_pos (by simpa using hik), List.getElem?_map, hi]
    rfl
  obtain ⟨st2, X, T, heq, hmem, -⟩ :=
    readBody_perm (F := F) recs (n := n)
      (t := ⟨headerLines m1 ts m3 n m5 b1 b2 b3 m9 ++
              (recs.map atomLine ++ extra), 9, 0, 9, fn⟩)
      (X := List.replicate n none) (T := List.replicate n none)
      hids hnd hlines (by simp) (by simp)
  rw [hlen] at heq
  refine ⟨st2, { st2 with frame_index := st2.frame_index + 1 }, X, T,
          heq, ?_, hmem⟩
  have hread := readHeader_headerLines m1 m3 m5 m9 ts n b1 b2 b3
    (recs.map atomLine ++ extra) 0 0 fn
  rw [_read]
  simp only [mkFile, hread, Int.natCast_nonneg, Int.not_lt,
    Int.toNat_natCast, if_neg (by simp : ¬ ((n : Int) < 0)), heq]

end HeaderLemmas

/-! ## Claims C2 and C7: header-level error classification -/

section HeaderErrors

/-- C2: decoding a next frame when the timestep value line is empty (the
stream is exhausted there) signals clean end-of-stream; this is the sole
header-level end-of-stream sentinel (`readHeader` reports `_EOF` exactly
in that case), and any other header structural defect surfaces as an
error distinct from end-of-stream (a `ValueError`), never as `_EOF`. -/
theorem C2_empty_timestep_eof (st : FileSt F) :
    (st.lines[st.pos + 1]? = none → _read st = .error .eof) ∧
    (readHeader st = .error .eof ↔ st.lines[st.pos + 1]? = none) ∧
    (∀ e, readHeader st = .error e → e = .eof ∨ e = .valueError) := by
  have hh := readHeader_eq st
  refine ⟨?_, ⟨?_, ?_⟩, ?_⟩
  · intro hnone
    rw [_read, hh, hnone]
  · intro h
    rw [hh] at h
    split at h
    next hstep => exact hstep
    next l hstep =>
      split at h
      · exact absurd h (by simp)
      split at h
      · exact absurd h (by simp)
      split at h
      · exact absurd h (by simp)
      split at h
      · exact absurd h (by simp)
      exact absurd h (by simp)
  · intro h
    rw [hh, h]
  · intro e h
    rw [hh] at h
    split at h
    · exact Or.inl (Except.error.inj h).symm
    split at h
    · exact Or.inr (Except.error.inj h).symm
    split at h
    · exact Or.inr (Except.error.inj h).symm
    split at h
    · exact Or.inr (Except.error.inj h).symm
    split at h
    · exact Or.inr (Except.error.inj h).symm
    exact absurd h (by simp)

/-- C7 (amended): header defects do raise an error, but it is a bare
`ValueError` carrying no line context — `readHeader` can never produce the
line-annotated `IOError` that body defects produce; an unparseable
atom-count line, or any unparseable box-bounds line (in order), yields
`ValueError`. -/
theorem C7_header_defect_bare_valueError (st : FileSt F) :
    (∀ (ln : Nat) (p : String),
      readHeader st ≠ .error (.parseIOError ln p)) ∧
    (∀ l, st.lines[st.pos + 1]? = some l →
      parseIntLine st.lines[st.pos + 3]? = none →
      readHeader st = .error .valueError) ∧
    (∀ l (n0 : Int), st.lines[st.pos + 1]? = some l →
      parseIntLine st.lines[st.pos + 3]? = some n0 →
      (parseBoxLine st.lines[st.pos + 5]? = none ∨
        ((parseBoxLine st.lines[st.pos + 5]?).isSome ∧
          parseBoxLine st.lines[st.pos + 6]? = none) ∨
        ((parseBoxLine st.lines[st.pos + 5]?).isSome ∧
          (parseBoxLine st.lines[st.pos + 6]?).isSome ∧
          parseBoxLine st.lines[st.pos + 7]? = none)) →
      readHeader st = .error .valueError) := by
  have hh := readHeader_eq st
  refine ⟨?_, ?_, ?_⟩
  · intro ln p h
    rw [hh] at h
    split at h
    · exact absurd h (by simp)
    split at h
    · exact absurd h (by simp)
    split at h
    · exact absurd h (by simp)
    split at h
    · exact absurd h (by simp)
    split at h
    · exact absurd h (by simp)
    exact absurd h (by simp)
  · intro l hstep hint
    rw [hh, hstep, hint]
  · intro l n0 hstep hint hbox
    rw [hh, hstep, hint]
    rcases hbox with h5 | ⟨h5, h6⟩ | ⟨h5, h6, h7⟩
    · rw [h5]
    · obtain ⟨b5, hb5⟩ := Option.isSome_iff_exists.mp h5
      rw [hb5, h6]
    · obtain ⟨b5, hb5⟩ := Option.isSome_iff_exists.mp h5
      obtain ⟨b6, hb6⟩ := Option.isSome_iff_exists.mp h6
      rw [hb5, hb6, h7]

end HeaderErrors

/-! ## Claim C6: the line number carried by a body parse failure -/

section BodyErrors

/-- If the first `j` body lines parse and line `j` (0-based within the
body) exists but does not, the body loop raises the `IOError` carrying the
line counter at entry plus `j` — the running line number of the defective
line — and the file name. -/
theorem readBodyAux_first_bad {n : Nat} :
    ∀ (j k : Nat) {t : FileSt F} {X : List (Option (V3 F))}
      {T : List (Option Int)},
      j < k →
      (∀ i, i < j → ∃ toks r, t.lines[t.pos + i]? = some toks ∧
        readAtomLine n toks = some r) →
      (∃ toks, t.lines[t.pos + j]? = some toks ∧
        readAtomLine n toks = none) →
      readBodyAux n k t X T =
        .error (.parseIOError (t.line_counter + j) t.filename)
  | 0, k, st, X, T, hjk, _, hbad => by
    obtain ⟨toks, hline, hatom⟩ := hbad
    obtain ⟨k, rfl⟩ : ∃ k1, k = k1 + 1 := ⟨k - 1, by omega⟩
    rw [readBodyAux_succ]
    simp only [Nat.add_zero] at hline
    rw [hline]
    simp [hatom]
  | j + 1, k, st, X, T, hjk, hgood, hbad => by
    obtain ⟨k, rfl⟩ : ∃ k1, k = k1 + 1 := ⟨k - 1, by omega⟩
    obtain ⟨toks0, r0, hline0, hatom0⟩ := hgood 0 (by omega)
    simp only [Nat.add_zero] at hline0
    rw [readBodyAux_succ, hline0]
    simp only [hatom0]
    have hrec := readBodyAux_first_bad j k
      (t := ⟨st.lines, st.pos + 1, st.frame_index,
              st.line_counter + 1, st.filename⟩)
      (X := X.set r0.1 (some r0.2.2)) (T := T.set r0.1 (some r0.2.1))
      (by omega)
      (fun i hi => by
        obtain ⟨toks, r, hl, ha⟩ := hgood (i + 1) (by omega)
        exact ⟨toks, r, by simpa [Nat.add_assoc, Nat.add_comm 1 i] using hl,
               ha⟩)
      (by
        obtain ⟨toks, hl, ha⟩ := hbad
        exact ⟨toks, by simpa [Nat.add_assoc, Nat.add_comm 1 j] using hl, ha⟩)
    rcases r0 with ⟨slot, ty, v⟩
    simp only at hrec
    rw [hrec]
    simp [Nat.add_assoc, Nat.add_comm 1 j]

/-- C6 (amended): a frame whose header parses but whose `j`-th body line
(0-based, after `j` well-formed ones) fails to parse raises the `IOError`
carrying the source path and the 0-based running line number
`line_counter + 9 + j` — not the 1-based atom line offset within the
frame. -/
theorem C6_body_parse_error_line {t u : FileSt F} {m : Int}
    {b : V3 F} (hh : readHeader t = .ok (u, m, b))
    (hn : 0 ≤ m) (j : Nat) (hj : j < m.toNat)
    (hgood : ∀ i, i < j → ∃ toks r, t.lines[t.pos + 9 + i]? = some toks ∧
      readAtomLine m.toNat toks = some r)
    (hbad : ∃ toks, t.lines[t.pos + 9 + j]? = some toks ∧
      readAtomLine m.toNat toks = none) :
    _read t = .error (.parseIOError (t.line_counter + 9 + j) t.filename) := by
  obtain ⟨hsth, _⟩ := readHeader_ok hh
  rw [_read, hh, hsth]
  dsimp only
  rw [if_neg (by omega)]
  have hbody := readBodyAux_first_bad (n := m.toNat) j m.toNat
    (t := ⟨t.lines, t.pos + 9, t.frame_index,
            t.line_counter + 9, t.filename⟩)
    (X := List.replicate m.toNat none)
    (T := List.replicate m.toNat none)
    hj
    (fun i hi => by
      obtain ⟨toks, r, hl, ha⟩ := hgood i hi
      exact ⟨toks, r, by simpa [Nat.add_assoc] using hl, ha⟩)
    (by
      obtain ⟨toks, hl, ha⟩ := hbad
      exact ⟨toks, by simpa [Nat.add_assoc] using hl, ha⟩)
  simp only at hbody
  rw [hbody]

end BodyErrors

/-! ## Claims C3, C4, C5, C9: batch reads, stride and the cursor -/

section BatchClaims

/-- C3: on a well-formed stream of `fs.length` frames, `read()` with no
arguments returns exactly the `fs.length` decoded frames; `read(n_frames=k)`
returns the first `min k fs.length` frames (all of them, without error,
when `k` exceeds the frame count); and a frame whose decoding raises the
line-annotated parse failure makes any non-trivial `read` raise that same
failure. -/
theorem C3_read_counts {st stF : FileSt F} {fs : List (Frame F)}
    (hd : Decodes st fs stF) :
    (∃ stf, read st none none none = .ok (fs, stf)) ∧
    (∀ k : Nat, ∃ stf, read st (some k) none none = .ok (fs.take k, stf) ∧
      (fs.take k).length = min k fs.length) ∧
    (∀ (st2 : FileSt F) (n? : Option Nat) (s : Option Nat)
      (ai : Option (List Nat)) (ln : Nat) (p : String), n? ≠ some 0 →
      _read st2 = .error (.parseIOError ln p) →
      read st2 n? s ai = .error (.parseIOError ln p)) := by
  refine ⟨?_, ?_, ?_⟩
  · obtain ⟨stf, hr⟩ := read_keeps_default hd none
    exact ⟨stf, by rwa [keptFrames, takeEvery_one] at hr⟩
  · intro k
    obtain ⟨stf, hr⟩ := read_keeps_default hd (some k)
    refine ⟨stf, by rwa [keptFrames, takeEvery_one] at hr, ?_⟩
    rw [List.length_take]
  · intro st2 n? s ai ln p hn0 hread
    rw [read]
    rcases n? with _ | (_ | k)
    · rw [readGo_none_succ, readGoStep, hread]
    · exact absurd rfl hn0
    · rw [readGo_some_succ, readGoStep, hread]

/-- C4: `read(stride=s)` on a well-formed stream of `fs.length` frames
returns exactly `⌈fs.length / s⌉` frames, namely those at stream positions
`0, s, 2s, …`, and raises nothing (end-of-stream mid-skip included). -/
theorem C4_read_stride {st stF : FileSt F} {fs : List (Frame F)}
    (hd : Decodes st fs stF) (s : Nat) (hs : 1 ≤ s) :
    ∃ stf, read st none (some s) none = .ok (takeEvery s fs, stf) ∧
      (takeEvery s fs).length = (fs.length + s - 1) / s ∧
      (∀ i : Nat, (takeEvery s fs)[i]? = fs[i * s]?) := by
  obtain ⟨stf, hr⟩ := read_keeps hd none s hs
  exact ⟨stf, hr, takeEvery_length s hs fs,
         fun i => takeEvery_getElem? s hs fs i⟩

/-- C5: on a well-formed stream of more than `k` frames, `seek(k, START)`
followed by `read(n_frames=1)` yields exactly frame `k` — the same frame
that reading `k + 1` frames sequentially from the start and taking the
last produces.  From a fresh stream the seek advances forward; from any
stream state whose frame index exceeds `k` the seek closes and reopens the
stream (position, frame index, line counter reset to zero) and replays,
landing on the same frame. -/
theorem C5_seek_then_read (lines : List (Line F)) (fn : String)
    {stF : FileSt F} {fs : List (Frame F)}
    (hd : Decodes (mkFile F lines fn) fs stF) (k : Nat)
    (hk : k < fs.length) :
    (∃ st1 stf, seek (mkFile F lines fn) (k : Int) 0 = .ok st1 ∧
      st1.frame_index = k ∧
      read st1 (some 1) none none = .ok ([fs.get ⟨k, hk⟩], stf)) ∧
    (∀ p fi lc : Nat, k < fi →
      ∃ st1 stf, seek (⟨lines, p, fi, lc, fn⟩ : FileSt F) (k : Int) 0 =
          .ok st1 ∧
        st1.frame_index = k ∧
        read st1 (some 1) none none = .ok ([fs.get ⟨k, hk⟩], stf)) ∧
    (∃ stf, read (mkFile F lines fn) (some (k + 1)) none none =
        .ok (fs.take (k + 1), stf) ∧
      (fs.take (k + 1)).getLast? = some (fs.get ⟨k, hk⟩)) := by
  obtain ⟨st1, hadv, hd2, hfi⟩ := seekAdvance_ok k hd (le_of_lt hk)
  have hfi' : st1.frame_index = k := by simpa [mkFile] using hfi
  have hkept1 : keptFrames (some 1) 1 (fs.drop k) = [fs.get ⟨k, hk⟩] := by
    rw [keptFrames]
    rw [takeEvery_one, List.drop_eq_getElem_cons hk, List.take_succ_cons,
        List.take_zero, List.get_eq_getElem]
  have hread1 : ∃ stf, read st1 (some 1) none none =
      .ok ([fs.get ⟨k, hk⟩], stf) := by
    obtain ⟨stf, hr⟩ := read_keeps_default hd2 (some 1)
    rw [hkept1] at hr
    exact ⟨stf, hr⟩
  refine ⟨?_, ?_, ?_⟩
  · obtain ⟨stf, hr⟩ := hread1
    refine ⟨st1, stf, ?_, hfi', hr⟩
    rw [seek, if_pos ⟨rfl, Int.natCast_nonneg k⟩,
        if_pos (by simp [mkFile])]
    have hcast : ((k : Int) - ((mkFile F lines fn).frame_index : Int)).toNat
        = k := by simp [mkFile]
    rw [hcast, hadv]
  · intro p fi lc hkfi
    obtain ⟨stf, hr⟩ := hread1
    refine ⟨st1, stf, ?_, hfi', hr⟩
    rw [seek, if_pos ⟨rfl, Int.natCast_nonneg k⟩,
        if_neg (by push_cast; omega)]
    have hcast : ((k : Int)).toNat = k := Int.toNat_natCast k
    rw [hcast]
    dsimp only [mkFile]
    rw [show seekAdvance k (⟨lines, 0, 0, 0, fn⟩ : FileSt F) = .ok st1
        from hadv]
  · obtain ⟨stf, hr⟩ := read_keeps_default hd (some (k + 1))
    refine ⟨stf, by rwa [keptFrames, takeEvery_one] at hr, ?_⟩
    rw [List.getLast?_eq_getElem?]
    have hlen : (fs.take (k + 1)).length = k + 1 := by
      rw [List.length_take]; omega
    rw [hlen, Nat.add_sub_cancel, List.getElem?_take, if_pos (by omega),
        List.getElem?_eq_getElem hk]
    simp [List.get_eq_getElem]

/-- C9 (amended): a forward cursor advance that runs past the end of the
stream does NOT terminate gracefully: the advance loop of `seek` catches
nothing, so the `_EOF` exception (an `IOError` subclass) propagates to the
caller. -/
theorem C9_forward_seek_propagates_eof {st stF : FileSt F}
    {fs : List (Frame F)} (hd : Decodes st fs stF)
    (hfi : st.frame_index = 0) (k : Nat) (hk : fs.length < k) :
    seek st (k : Int) 0 = .error (.readErr .eof) := by
  rw [seek, if_pos ⟨rfl, Int.natCast_nonneg k⟩,
      if_pos (by rw [hfi]; push_cast; omega)]
  have hcast : ((k : Int) - (st.frame_index : Int)).toNat = k := by
    rw [hfi]; simp
  rw [hcast, seekAdvance_eof k hd hk]

end BatchClaims

/-! ## Claims C10 and C8: the writer -/

section WriterLemmas

/-- Every type value printed on an atom line was looked up in `types`. -/
theorem emitAtoms_types_mem {types : List Int} :
    ∀ (vs : List (V3 F)) (j : Nat) (id : Nat) (ty : Int) (v : V3 F),
      OutLine.atomRow id ty v ∈ (emitAtoms types j vs).1 → ty ∈ types
  | [], j, id, ty, v, h => by simp [emitAtoms] at h
  | v' :: vs, j, id, ty, v, h => by
    rw [emitAtoms] at h
    rcases hget : types[j]? with _ | t <;> rw [hget] at h
    · simp at h
    · rcases hrec : emitAtoms (F := F) types (j + 1) vs with ⟨rest, err⟩
      rw [hrec] at h
      simp only [List.mem_cons] at h
      rcases h with heq | hmem
      · obtain ⟨-, rfl, -⟩ : id = j + 1 ∧ ty = t ∧ v = v' := by
          simpa using heq
        obtain ⟨hj, rfl⟩ := List.getElem?_eq_some.mp hget
        exact List.getElem_mem hj
      · exact emitAtoms_types_mem vs (j + 1) id ty v
          (by rw [hrec]; exact hmem)

/-- The lines of a fully emitted frame: the nine header lines followed by
the atom lines. -/
theorem emitFrame_fst_success {i n0 : Nat} {mins : List F} {cl0 : V3 F}
    {types : List Int} {coords : List (V3 F)} {m0 m1 m2 : F}
    (h0 : mins[0]? = some m0) (h1 : mins[1]? = some m1)
    (h2 : mins[2]? = some m2) :
    (emitFrame i n0 mins cl0 types coords).1 =
      [OutLine.itemTimestep, .tsVal i, .itemNumAtoms, .natomsVal n0,
       .itemBox, .boundVal m0 (m0 + cl0.1), .boundVal m1 (m1 + cl0.2.1),
       .boundVal m2 (m2 + cl0.2.2), .itemAtoms] ++
        (emitAtoms types 0 coords).1 := by
  rw [emitFrame, h0, h1, h2]
  rcases hrec : emitAtoms (F := F) types 0 coords with ⟨body, err⟩
  rfl

/-- Every atom line of an emitted frame comes from its body loop. -/
theorem emitFrame_atom_mem {i n0 : Nat} {mins : List F} {cl0 : V3 F}
    {types : List Int} {coords : List (V3 F)} {id : Nat} {ty : Int}
    {v : V3 F}
    (h : OutLine.atomRow id ty v ∈ (emitFrame i n0 mins cl0 types coords).1) :
    OutLine.atomRow id ty v ∈ (emitAtoms types 0 coords).1 := by
  rcases h0 : mins[0]? with _ | m0
  · rw [emitFrame, h0] at h
    simp at h
  rcases h1 : mins[1]? with _ | m1
  · rw [emitFrame, h0, h1] at h
    simp at h
  rcases h2 : mins[2]? with _ | m2
  · rw [emitFrame, h0, h1, h2] at h
    simp at h
  rw [emitFrame_fst_success h0 h1 h2] at h
  simpa using h

/-- Every atom line written by the frame loop draws its type from
`types`. -/
theorem writeLoop_atom_types_mem {xyzS : List (List (V3 F))} {cl0 : V3 F}
    {n0 : Nat} {types : List Int} :
    ∀ (frames : List (List (V3 F))) (i : Nat) {id : Nat} {ty : Int}
      {v : V3 F},
      OutLine.atomRow id ty v ∈ (writeLoop xyzS cl0 n0 types i frames).1 →
      ty ∈ types
  | [], i, id, ty, v, h => by simp [writeLoop] at h
  | f :: rest, i, id, ty, v, h => by
    rw [writeLoop] at h
    rcases hef : emitFrame (F := F) i n0 ((xyzS.headD []).map atomMin) cl0
        types f with ⟨out, err⟩
    rw [hef] at h
    rcases err with _ | e
    · rcases hwl : writeLoop (F := F) xyzS cl0 n0 types (i + 1) rest
        with ⟨out2, err2⟩
      rw [hwl] at h
      simp only [List.mem_append] at h
      rcases h with h | h
      · exact emitAtoms_types_mem f 0 id ty v
          (emitFrame_atom_mem (by rw [hef]; exact h))
      · exact writeLoop_atom_types_mem rest (i + 1) (by rw [hwl]; exact h)
    · exact emitAtoms_types_mem f 0 id ty v
        (emitFrame_atom_mem (by rw [hef]; exact h))

/-- `write` with `types` omitted and valid arguments: the frame loop runs
with an all-ones types array. -/
theorem write_none_eq (xyz : List (List (V3 F))) (cls : List (V3 F))
    (hv : validXyz xyz = true) (hlen : cls.length = xyz.length) :
    write xyz cls none =
      match (cls.map scaleV3).head? with
      | none => ([], some .indexError)
      | some cl0 =>
        writeLoop (xyz.map (List.map scaleV3)) cl0 (xyz.headD []).length
          (List.replicate (xyz.headD []).length 1) 0
          (xyz.map (List.map scaleV3)) := by
  rw [write, if_neg (by simp [hv]), if_neg (by simp [hlen])]
  dsimp only
  rw [if_neg (by simp)]
  simp

/-- C10: when `write` is called with `types` omitted, every atom line is
written with type 1; when a per-atom types array with more than one element
is explicitly supplied (to an otherwise valid call), the truthiness test
`not types` raises `ValueError` before any line is written. -/
theorem C10_write_types_handling :
    (∀ (xyz : List (List (V3 F))) (cls : List (V3 F)) (id : Nat) (ty : Int)
      (v : V3 F), OutLine.atomRow id ty v ∈ (write xyz cls none).1 →
      ty = 1) ∧
    (∀ (xyz : List (List (V3 F))) (cls : List (V3 F)) (t1 t2 : Int)
      (rest : List Int), validXyz xyz = true → cls.length = xyz.length →
      write xyz cls (some (t1 :: t2 :: rest)) = ([], some .valueError)) := by
  constructor
  · intro xyz cls id ty v h
    rcases hb : validXyz xyz with _ | _
    · rw [write] at h
      simp [hb] at h
    by_cases hlen : cls.length = xyz.length
    · rw [write_none_eq xyz cls hb hlen] at h
      rcases hcl : (cls.map scaleV3).head? with _ | cl0 <;> rw [hcl] at h
      · simp at h
      · exact List.eq_of_mem_replicate (writeLoop_atom_types_mem _ 0 h)
    · rw [write] at h
      simp [hb, hlen] at h
  · intro xyz cls t1 t2 rest hv hlen
    simp [write, hv, hlen, pyNotTypes]

/-- C8 (code bug): the box bounds `write` emits are NOT
`(per-axis minimum of this frame's coordinates, minimum + this frame's
cell length)`.  The source computes `mins = xyz[0].min(axis=1)` — the
per-ATOM minima of frame 0 — and indexes them at 0, 1, 2 with frame 0's
cell lengths for every frame.  Consequences, both evaluated here: a
two-atom frame crashes with `IndexError` after writing only two bounds
lines (built from per-atom minima), and in a two-frame file the second
frame's bounds repeat frame 0's (per-atom-minimum–derived) bounds instead
of using its own coordinates and its own cell lengths. -/
theorem C8_write_box_bug :
    (write (F := ℤ) [[(0, 0, 0), (1, 2, 3)]] [(1, 1, 1)] none =
      ([.itemTimestep, .tsVal 0, .itemNumAtoms, .natomsVal 2, .itemBox,
        .boundVal 0 10, .boundVal 10 20], some .indexError)) ∧
    (write (F := ℤ) [[(0, 0, 0), (4, 5, 6), (7, 8, 9)],
        [(9, 9, 9), (9, 9, 9), (9, 9, 9)]] [(1, 1, 1), (2, 2, 2)] none =
      ([.itemTimestep, .tsVal 0, .itemNumAtoms, .natomsVal 3, .itemBox,
        .boundVal 0 10, .boundVal 40 50, .boundVal 70 80, .itemAtoms,
        .atomRow 1 1 (0, 0, 0), .atomRow 2 1 (40, 50, 60),
        .atomRow 3 1 (70, 80, 90),
        .itemTimestep, .tsVal 1, .itemNumAtoms, .natomsVal 3, .itemBox,
        .boundVal 0 10, .boundVal 40 50, .boundVal 70 80, .itemAtoms,
        .atomRow 1 1 (90, 90, 90), .atomRow 2 1 (90, 90, 90),
        .atomRow 3 1 (90, 90, 90)], none)) :=
  ⟨by decide, by decide⟩

end WriterLemmas

/-- `egLines` decodes to exactly `egFrames` and then reports clean
end-of-stream. -/
theorem egFile_decodes : Decodes egFile egFrames egEnd := by
  refine Decodes.cons (b := ⟨egLines, 12, 1, 12, "eg"⟩)
    (f := ⟨[some (1, 2, 3), some (4, 5, 6), some (7, 8, 9)], (10, 11, 12)⟩)
    (by decide) ?_
  refine Decodes.cons (b := egEnd)
    (f := ⟨[some (10, 11, 12), some (13, 14, 15), some (16, 17, 18)],
           (1, 2, 4)⟩)
    (by decide) ?_
  exact Decodes.nil (by decide)

/-- Witness for C1 at the spec's scenario: body order id 3, 1, 2. -/
theorem C1_body_permutation_witness :
    ∃ (st2 stR : FileSt ℤ) (X : List (Option (V3 ℤ)))
      (T : List (Option Int)),
      readBodyAux 3 3
        (⟨headerLines [] 0 [] 3 [] (0, 10) (0, 11) (0, 12) [] ++
            (egRecs.map atomLine ++ []), 9, 0, 9, "eg1"⟩ : FileSt ℤ)
        (List.replicate 3 none) (List.replicate 3 none) = .ok (st2, X, T) ∧
      _read (mkFile ℤ (headerLines [] 0 [] 3 [] (0, 10) (0, 11) (0, 12) [] ++
          (egRecs.map atomLine ++ [])) "eg1") =
        .ok (stR, ⟨X, (10 - 0, 11 - 0, 12 - 0)⟩) ∧
      (∀ r ∈ egRecs, X[(r.id - 1).toNat]? = some (some r.pos) ∧
        T[(r.id - 1).toNat]? = some (some r.ty)) :=
  C1_body_permutation 3 egRecs [] [] [] [] 0 (0, 10) (0, 11) (0, 12) []
    "eg1" (by decide)

/-- Witness for C2: a stream exhausted at a frame boundary reports clean
end-of-stream. -/
theorem C2_empty_timestep_eof_witness :
    _read (mkFile ℤ [] "w2") = .error .eof :=
  (C2_empty_timestep_eof (mkFile ℤ [] "w2")).1 (by decide)

/-- Witness for C3 on the 2-frame example file: unbounded read returns both
frames, `n_frames = 1` returns one, `n_frames = 5` returns both without
error, and a read of a frame with a defective body line raises the
annotated parse failure. -/
theorem C3_read_counts_witness :
    (∃ stf, read egFile none none none = .ok (egFrames, stf)) ∧
    (∃ stf, read egFile (some 1) none none = .ok (egFrames.take 1, stf) ∧
      (egFrames.take 1).length = min 1 egFrames.length) ∧
    (∃ stf, read egFile (some 5) none none = .ok (egFrames.take 5, stf) ∧
      (egFrames.take 5).length = min 5 egFrames.length) ∧
    read (mkFile ℤ badBodyLines "bad") (some 1) none none =
      .error (.parseIOError 9 "bad") := by
  obtain ⟨h1, h2, h3⟩ := C3_read_counts egFile_decodes
  exact ⟨h1, h2 1, h2 5,
         h3 (mkFile ℤ badBodyLines "bad") (some 1) none none 9 "bad"
           (by decide) (by decide)⟩

/-- Witness for C4: stride 2 on the 2-frame example keeps `⌈2/2⌉ = 1`
frame, the one at position 0. -/
theorem C4_read_stride_witness :
    ∃ stf, read egFile none (some 2) none =
        .ok (takeEvery 2 egFrames, stf) ∧
      (takeEvery 2 egFrames).length = (egFrames.length + 2 - 1) / 2 ∧
      (∀ i : Nat, (takeEvery 2 egFrames)[i]? = egFrames[i * 2]?) :=
  C4_read_stride egFile_decodes 2 (by decide)

/-- Witness for C5: seeking to frame 1 of the 2-frame example (forward from
fresh, and by rewind from a state at frame index 2) then reading one frame
yields frame 1, the last of the first two frames. -/
theorem C5_seek_then_read_witness :
    (∃ st1 stf, seek (mkFile ℤ egLines "eg") (1 : Int) 0 = .ok st1 ∧
      st1.frame_index = 1 ∧
      read st1 (some 1) none none =
        .ok ([egFrames.get ⟨1, by decide⟩], stf)) ∧
    (∃ st1 stf, seek (⟨egLines, 24, 2, 24, "eg"⟩ : FileSt ℤ) (1 : Int) 0 =
        .ok st1 ∧
      st1.frame_index = 1 ∧
      read st1 (some 1) none none =
        .ok ([egFrames.get ⟨1, by decide⟩], stf)) ∧
    (∃ stf, read (mkFile ℤ egLines "eg") (some 2) none none =
        .ok (egFrames.take 2, stf) ∧
      (egFrames.take 2).getLast? = some (egFrames.get ⟨1, by decide⟩)) := by
  obtain ⟨h1, h2, h3⟩ :=
    C5_seek_then_read egLines "eg" egFile_decodes 1 (by decide)
  exact ⟨h1, h2 24 2 24 (by decide), h3⟩

/-- Counterexample for C6 as stated: the first body line of the first frame
is the frame's atom line 1, yet the parse failure reports line 9 — the
0-based running line number — not the 1-based atom offset. -/
theorem C6_counterexample :
    _read (mkFile ℤ badBodyLines "bad") = .error (.parseIOError 9 "bad") ∧
    (9 : Nat) ≠ 1 :=
  ⟨by decide, by decide⟩

/-- Witness for the amended C6: in a frame whose second body line (atom
line offset 2, 0-based body index 1) is defective, the error reports
running line number `0 + 9 + 1 = 10`. -/
theorem C6_body_parse_error_line_witness :
    _read (mkFile ℤ w6Lines "w6") = .error (.parseIOError 10 "w6") :=
  C6_body_parse_error_line (t := mkFile ℤ w6Lines "w6")
    (u := ⟨w6Lines, 9, 0, 9, "w6"⟩) (m := 2) (b := (1, 1, 1))
    (by decide) (by decide) 1 (by decide)
    (fun i hi => by
      obtain rfl : i = 0 := by omega
      exact ⟨[Token.tInt 1, Token.tInt 1, Token.tFloat 0, Token.tFloat 0,
              Token.tFloat 0], (0, 1, (0, 0, 0)), by decide, by decide⟩)
    ⟨[Token.tInt 2, Token.tBad, Token.tFloat 0, Token.tFloat 0,
      Token.tFloat 0], by decide, by decide⟩

/-- Counterexample for C7 as stated: an unparseable atom-count line raises
a bare `ValueError`, an exception class that carries no line context. -/
theorem C7_counterexample :
    _read (mkFile ℤ w7Lines "w7") = .error .valueError ∧
    carriesLineContext .valueError = false :=
  ⟨by decide, by decide⟩

/-- Witness for the amended C7 at a concrete defective header. -/
theorem C7_header_defect_bare_valueError_witness :
    readHeader (mkFile ℤ w7Lines "w7") = .error .valueError :=
  (C7_header_defect_bare_valueError (mkFile ℤ w7Lines "w7")).2.1
    [Token.tInt 0] (by decide) (by decide)

/-- Counterexample for C9 as stated: a forward seek on an exhausted stream
surfaces the end-of-stream exception to the caller instead of terminating
gracefully. -/
theorem C9_counterexample :
    seek (mkFile ℤ [] "w9") 1 0 = .error (.readErr .eof) := by decide

/-- Witness for the amended C9. -/
theorem C9_forward_seek_propagates_eof_witness :
    seek (mkFile ℤ [] "w9b") 2 0 = .error (.readErr .eof) :=
  C9_forward_seek_propagates_eof (Decodes.nil (by decide)) rfl 2 (by decide)

/-- Witness for C10: an explicitly supplied two-element types array makes
an otherwise valid `write` raise `ValueError` with nothing written. -/
theorem C10_write_types_handling_witness :
    write (F := ℤ) [[(0, 0, 0)]] [(2, 2, 2)] (some [1, 2]) =
      ([], some .valueError) :=
  (C10_write_types_handling (F := ℤ)).2 [[(0, 0, 0)]] [(2, 2, 2)] 1 2 []
    (by decide) (by decide)

end Lammpstrj


